import Mathlib

/-!
Verification of the EBML library (VINT/size codec, id codec, value model,
restrictions, EDTD binary literal parser, container reader) against its
natural-language specification.  Rust code is shallowly embedded: machine
integers become `Nat`/`Int` with explicit truncation where the source casts,
fallible code returns `Option` or an explicit outcome type, and slice
indexing that can panic in Rust is modelled by an explicit `panic` outcome.
-/

set_option maxHeartbeats 1600000

namespace Ebml

/-- Fuel-bounded bit length: `bitLenGo n w` models the Rust expression
`w - n.leading_zeros()` for an unsigned integer type of `w` bits
(whenever `n < 2 ^ w`). -/
def bitLenGo : Nat → Nat → Nat
  | _, 0 => 0
  | n, fuel + 1 => if n = 0 then 0 else bitLenGo (n / 2) fuel + 1

theorem bitLenGo_le_iff {n : Nat} (fuel k : Nat) (h : n < 2 ^ fuel) :
    bitLenGo n fuel ≤ k ↔ n < 2 ^ k := by
  induction fuel generalizing n k with
  | zero =>
    have hn : n = 0 := by simpa using h
    subst hn
    constructor
    · intro _; exact Nat.two_pow_pos k
    · intro _; exact Nat.zero_le k
  | succ fuel ih =>
    by_cases hn : n = 0
    · subst hn
      constructor
      · intro _; exact Nat.two_pow_pos k
      · intro _
        simp only [bitLenGo, if_pos rfl]
        exact Nat.zero_le k
    · simp only [bitLenGo, if_neg hn]
      cases k with
      | zero =>
        constructor
        · intro hle; omega
        · intro hlt
          exfalso
          have h1 : 1 ≤ n := Nat.one_le_iff_ne_zero.mpr hn
          simp only [pow_zero] at hlt
          omega
      | succ k =>
        have hdiv : n / 2 < 2 ^ fuel := by
          rw [pow_succ] at h; omega
        rw [Nat.succ_le_succ_iff, ih k hdiv, pow_succ]
        omega

theorem bitLenGo_gt_iff {n : Nat} (fuel k : Nat) (h : n < 2 ^ fuel) :
    k < bitLenGo n fuel ↔ 2 ^ k ≤ n := by
  have := bitLenGo_le_iff fuel k h
  omega

/-- The reserved "unknown" head byte at each tail length (src/ebml/src/size.rs). -/
def UNKNOWN_HEAD_VALUES : List Nat := [0xFF, 0x7F, 0x3F, 0x1F, 0x0F, 0x07, 0x03, 0x01]

/-- The bitmask applied to the head to decode it as part of the real value. -/
def HEAD_MASK_VALUES : List Nat := [0x7F, 0x3F, 0x1F, 0x0F, 0x07, 0x03, 0x01, 0x00]

/-- An EBML `Size`: a head byte and a 7-byte tail (src/ebml/src/size.rs).
Bytes are modelled as `Nat` below 256. -/
structure Size where
  head : Nat
  tail : List Nat
  deriving DecidableEq, Repr

/-- The unknown-size sentinel `UNKNOWN_SIZE`. -/
def UNKNOWN_SIZE : Size := { head := 0xFF, tail := [0, 0, 0, 0, 0, 0, 0] }

/-- Models `self.head.leading_zeros()` for the `u8` head. -/
def Size.lz (s : Size) : Nat := 8 - bitLenGo s.head 8

/-- Models `Size::get_width`. -/
def Size.get_width (s : Size) : Nat := s.lz + 1

/-- Models `Size::get_value`: `None` is the unknown sentinel, otherwise the
big-endian value of the masked head and the first `tail_len` tail bytes. -/
def Size.get_value (s : Size) : Option Nat :=
  let tail_len := s.lz
  if (s.tail.take tail_len).all (· == 0xFF) && (s.head == UNKNOWN_HEAD_VALUES.getD tail_len 0) then
    none
  else
    let vm := (List.range tail_len).foldl
      (fun (vm : Nat × Nat) i => (vm.1 + vm.2 * s.tail.getD (tail_len - 1 - i) 0, vm.2 * 256))
      (0, 1)
    some (vm.1 + vm.2 * (s.head &&& HEAD_MASK_VALUES.getD tail_len 0))

/-- Models `impl From<u8> for Size`. -/
def Size.fromU8 (data : Nat) : Size :=
  if 7 < bitLenGo data 8 ∨ data = 0x7F then
    { head := 0x40, tail := [data, 0, 0, 0, 0, 0, 0] }
  else
    { head := 0x80 ||| data, tail := [0, 0, 0, 0, 0, 0, 0] }

/-- Models `impl From<u16> for Size`; `as u8` casts keep the low 8 bits. -/
def Size.fromU16 (data : Nat) : Size :=
  if 14 < bitLenGo data 16 ∨ data = 0x3FFF then
    { head := 0x20, tail := [(data >>> 8) % 256, data % 256, 0, 0, 0, 0, 0] }
  else if 7 < bitLenGo data 16 ∨ data = 0x7F then
    { head := 0x40 ||| ((data >>> 8) % 256), tail := [data % 256, 0, 0, 0, 0, 0, 0] }
  else
    Size.fromU8 (data % 256)

/-- Models `impl From<u32> for Size`. -/
def Size.fromU32 (data : Nat) : Size :=
  if 28 < bitLenGo data 32 ∨ data = 0x0FFFFFFF then
    { head := 0x08,
      tail := [(data >>> 24) % 256, (data >>> 16) % 256, (data >>> 8) % 256, data % 256,
               0, 0, 0] }
  else if 21 < bitLenGo data 32 ∨ data = 0x1FFFFF then
    { head := 0x10 ||| ((data >>> 24) % 256),
      tail := [(data >>> 16) % 256, (data >>> 8) % 256, data % 256, 0, 0, 0, 0] }
  else if 14 < bitLenGo data 32 ∨ data = 0x3FFF then
    { head := 0x20 ||| ((data >>> 16) % 256),
      tail := [(data >>> 8) % 256, data % 256, 0, 0, 0, 0, 0] }
  else
    Size.fromU16 (data % 65536)

/-- Models `Size::from_u64`. -/
def Size.from_u64 (data : Nat) : Option Size :=
  if 56 < bitLenGo data 64 ∨ data = 0xFFFFFFFFFFFFFF then
    none
  else if 49 < bitLenGo data 64 ∨ data = 0x1FFFFFFFFFFFF then
    some { head := 0x01,
           tail := [(data >>> 48) % 256, (data >>> 40) % 256, (data >>> 32) % 256,
                    (data >>> 24) % 256, (data >>> 16) % 256, (data >>> 8) % 256, data % 256] }
  else if 42 < bitLenGo data 64 ∨ data = 0x3FFFFFFFFFF then
    some { head := 0x02 ||| ((data >>> 48) % 256),
           tail := [(data >>> 40) % 256, (data >>> 32) % 256, (data >>> 24) % 256,
                    (data >>> 16) % 256, (data >>> 8) % 256, data % 256, 0] }
  else if 35 < bitLenGo data 64 ∨ data = 0x7FFFFFFFF then
    some { head := 0x04 ||| ((data >>> 40) % 256),
           tail := [(data >>> 32) % 256, (data >>> 24) % 256, (data >>> 16) % 256,
                    (data >>> 8) % 256, data % 256, 0, 0] }
  else if 28 < bitLenGo data 64 ∨ data = 0x0FFFFFFF then
    some { head := 0x08 ||| ((data >>> 32) % 256),
           tail := [(data >>> 24) % 256, (data >>> 16) % 256, (data >>> 8) % 256, data % 256,
                    0, 0, 0] }
  else
    some (Size.fromU32 (data % 4294967296))

theorem gvSpec1 (b : Nat) (hb : b < 127) :
    (Size.mk (0x80 ||| b) [0, 0, 0, 0, 0, 0, 0]).get_value = some b ∧
    (Size.mk (0x80 ||| b) [0, 0, 0, 0, 0, 0, 0]).get_width = 1 := by
  have key : ∀ x < 127, bitLenGo (0x80 ||| x) 8 = 8 ∧ ((0x80 ||| x) &&& 0x7F) = x ∧
      ((0x80 ||| x) == 0xFF) = false := by decide
  obtain ⟨k1, k2, k3⟩ := key b hb
  refine ⟨?_, ?_⟩
  · simp only [Size.get_value, Size.lz, k1, k2, k3]
    norm_num [UNKNOWN_HEAD_VALUES, HEAD_MASK_VALUES]
    exact ⟨by simpa using k3, k2⟩
  · simp only [Size.get_width, Size.lz, k1]

theorem gvSpec2 (b c0 : Nat) (hb : b < 64) (hne : ¬(b = 63 ∧ c0 = 255)) :
    (Size.mk (0x40 ||| b) [c0, 0, 0, 0, 0, 0, 0]).get_value = some (b * 2 ^ 8 + c0) ∧
    (Size.mk (0x40 ||| b) [c0, 0, 0, 0, 0, 0, 0]).get_width = 2 := by
  have key : ∀ x < 64, bitLenGo (0x40 ||| x) 8 = 7 ∧ ((0x40 ||| x) &&& 0x3F) = x ∧
      ((0x40 ||| x) == 0x7F) = (x == 63) := by decide
  obtain ⟨k1, k2, k3⟩ := key b hb
  refine ⟨?_, ?_⟩
  · simp only [Size.get_value, Size.lz, k1, k2, k3]
    norm_num [UNKNOWN_HEAD_VALUES, HEAD_MASK_VALUES, List.range_succ, List.foldl_concat]
    have k3' : (0x40 ||| b = 0x7F) ↔ b = 63 := by simpa using k3
    constructor
    · intro hc hh
      exact hne ⟨k3'.mp hh, hc⟩
    · rw [k2]; omega
  · simp only [Size.get_width, Size.lz, k1]

theorem gvSpec3 (b c0 c1 : Nat) (hb : b < 32) (hne : ¬(b = 31 ∧ c0 = 255 ∧ c1 = 255)) :
    (Size.mk (0x20 ||| b) [c0, c1, 0, 0, 0, 0, 0]).get_value =
      some (b * 2 ^ 16 + c0 * 2 ^ 8 + c1) ∧
    (Size.mk (0x20 ||| b) [c0, c1, 0, 0, 0, 0, 0]).get_width = 3 := by
  have key : ∀ x < 32, bitLenGo (0x20 ||| x) 8 = 6 ∧ ((0x20 ||| x) &&& 0x1F) = x ∧
      ((0x20 ||| x) == 0x3F) = (x == 31) := by decide
  obtain ⟨k1, k2, k3⟩ := key b hb
  have k3' : (0x20 ||| b = 0x3F) ↔ b = 31 := by simpa using k3
  refine ⟨?_, ?_⟩
  · simp only [Size.get_value, Size.lz, k1]
    norm_num [UNKNOWN_HEAD_VALUES, HEAD_MASK_VALUES, List.range_succ, List.foldl_concat,
      k2, k3']
    omega
  · simp only [Size.get_width, Size.lz, k1]

theorem gvSpec4 (b c0 c1 c2 : Nat) (hb : b < 16)
    (hne : ¬(b = 15 ∧ c0 = 255 ∧ c1 = 255 ∧ c2 = 255)) :
    (Size.mk (0x10 ||| b) [c0, c1, c2, 0, 0, 0, 0]).get_value =
      some (b * 2 ^ 24 + c0 * 2 ^ 16 + c1 * 2 ^ 8 + c2) ∧
    (Size.mk (0x10 ||| b) [c0, c1, c2, 0, 0, 0, 0]).get_width = 4 := by
  have key : ∀ x < 16, bitLenGo (0x10 ||| x) 8 = 5 ∧ ((0x10 ||| x) &&& 0x0F) = x ∧
      ((0x10 ||| x) == 0x1F) = (x == 15) := by decide
  obtain ⟨k1, k2, k3⟩ := key b hb
  have k3' : (0x10 ||| b = 0x1F) ↔ b = 15 := by simpa using k3
  refine ⟨?_, ?_⟩
  · simp only [Size.get_value, Size.lz, k1]
    norm_num [UNKNOWN_HEAD_VALUES, HEAD_MASK_VALUES, List.range_succ, List.foldl_concat,
      k2, k3']
    omega
  · simp only [Size.get_width, Size.lz, k1]

theorem gvSpec5 (b c0 c1 c2 c3 : Nat) (hb : b < 8)
    (hne : ¬(b = 7 ∧ c0 = 255 ∧ c1 = 255 ∧ c2 = 255 ∧ c3 = 255)) :
    (Size.mk (0x08 ||| b) [c0, c1, c2, c3, 0, 0, 0]).get_value =
      some (b * 2 ^ 32 + c0 * 2 ^ 24 + c1 * 2 ^ 16 + c2 * 2 ^ 8 + c3) ∧
    (Size.mk (0x08 ||| b) [c0, c1, c2, c3, 0, 0, 0]).get_width = 5 := by
  have key : ∀ x < 8, bitLenGo (0x08 ||| x) 8 = 4 ∧ ((0x08 ||| x) &&& 0x07) = x ∧
      ((0x08 ||| x) == 0x0F) = (x == 7) := by decide
  obtain ⟨k1, k2, k3⟩ := key b hb
  have k3' : (0x08 ||| b = 0x0F) ↔ b = 7 := by simpa using k3
  refine ⟨?_, ?_⟩
  · simp only [Size.get_value, Size.lz, k1]
    norm_num [UNKNOWN_HEAD_VALUES, HEAD_MASK_VALUES, List.range_succ, List.foldl_concat,
      k2, k3']
    omega
  · simp only [Size.get_width, Size.lz, k1]

theorem gvSpec6 (b c0 c1 c2 c3 c4 : Nat) (hb : b < 4)
    (hne : ¬(b = 3 ∧ c0 = 255 ∧ c1 = 255 ∧ c2 = 255 ∧ c3 = 255 ∧ c4 = 255)) :
    (Size.mk (0x04 ||| b) [c0, c1, c2, c3, c4, 0, 0]).get_value =
      some (b * 2 ^ 40 + c0 * 2 ^ 32 + c1 * 2 ^ 24 + c2 * 2 ^ 16 + c3 * 2 ^ 8 + c4) ∧
    (Size.mk (0x04 ||| b) [c0, c1, c2, c3, c4, 0, 0]).get_width = 6 := by
  have key : ∀ x < 4, bitLenGo (0x04 ||| x) 8 = 3 ∧ ((0x04 ||| x) &&& 0x03) = x ∧
      ((0x04 ||| x) == 0x07) = (x == 3) := by decide
  obtain ⟨k1, k2, k3⟩ := key b hb
  have k3' : (0x04 ||| b = 0x07) ↔ b = 3 := by simpa using k3
  refine ⟨?_, ?_⟩
  · simp only [Size.get_value, Size.lz, k1]
    norm_num [UNKNOWN_HEAD_VALUES, HEAD_MASK_VALUES, List.range_succ, List.foldl_concat,
      k2, k3']
    omega
  · simp only [Size.get_width, Size.lz, k1]

theorem gvSpec7 (b c0 c1 c2 c3 c4 c5 : Nat) (hb : b < 2)
    (hne : ¬(b = 1 ∧ c0 = 255 ∧ c1 = 255 ∧ c2 = 255 ∧ c3 = 255 ∧ c4 = 255 ∧ c5 = 255)) :
    (Size.mk (0x02 ||| b) [c0, c1, c2, c3, c4, c5, 0]).get_value =
      some (b * 2 ^ 48 + c0 * 2 ^ 40 + c1 * 2 ^ 32 + c2 * 2 ^ 24 + c3 * 2 ^ 16 +
        c4 * 2 ^ 8 + c5) ∧
    (Size.mk (0x02 ||| b) [c0, c1, c2, c3, c4, c5, 0]).get_width = 7 := by
  have key : ∀ x < 2, bitLenGo (0x02 ||| x) 8 = 2 ∧ ((0x02 ||| x) &&& 0x01) = x ∧
      ((0x02 ||| x) == 0x03) = (x == 1) := by decide
  obtain ⟨k1, k2, k3⟩ := key b hb
  have k3' : (0x02 ||| b = 0x03) ↔ b = 1 := by simpa using k3
  refine ⟨?_, ?_⟩
  · simp only [Size.get_value, Size.lz, k1]
    norm_num [UNKNOWN_HEAD_VALUES, HEAD_MASK_VALUES, List.range_succ, List.foldl_concat,
      k2, k3']
    omega
  · simp only [Size.get_width, Size.lz, k1]

theorem gvSpec8 (c0 c1 c2 c3 c4 c5 c6 : Nat)
    (hne : ¬(c0 = 255 ∧ c1 = 255 ∧ c2 = 255 ∧ c3 = 255 ∧ c4 = 255 ∧ c5 = 255 ∧ c6 = 255)) :
    (Size.mk 0x01 [c0, c1, c2, c3, c4, c5, c6]).get_value =
      some (c0 * 2 ^ 48 + c1 * 2 ^ 40 + c2 * 2 ^ 32 + c3 * 2 ^ 24 + c4 * 2 ^ 16 +
        c5 * 2 ^ 8 + c6) ∧
    (Size.mk 0x01 [c0, c1, c2, c3, c4, c5, c6]).get_width = 8 := by
  have k1 : bitLenGo 1 8 = 1 := by decide
  refine ⟨?_, ?_⟩
  · simp only [Size.get_value, Size.lz, k1]
    norm_num [UNKNOWN_HEAD_VALUES, HEAD_MASK_VALUES, List.range_succ, List.foldl_concat]
    omega
  · simp only [Size.get_width, Size.lz, k1]

/-- Specification-side predicate: value `v` fits in an encoding of width `w`
(it is representable in `7 * w` data bits and is not the reserved all-ones
pattern of that width). -/
def fitsWidth (v w : Nat) : Prop := v < 2 ^ (7 * w) ∧ v ≠ 2 ^ (7 * w) - 1

instance (v w : Nat) : Decidable (fitsWidth v w) := by
  unfold fitsWidth; infer_instance

/-- Full encoding correctness of a `Size` for value `v`: it decodes back to
`v` and its width is the least width in which `v` fits. -/
def SizeSpec (v : Nat) (s : Size) : Prop :=
  s.get_value = some v ∧ fitsWidth v s.get_width ∧
    ∀ w, 1 ≤ w → fitsWidth v w → s.get_width ≤ w

theorem minW_of {v w : Nat} (hw : 1 ≤ w)
    (hlow : 2 ^ (7 * (w - 1)) ≤ v ∨ v = 2 ^ (7 * (w - 1)) - 1 ∨ w = 1) :
    ∀ w', 1 ≤ w' → fitsWidth v w' → w ≤ w' := by
  intro w' hw' hfit
  by_contra hlt
  push_neg at hlt
  have hmono : 2 ^ (7 * w') ≤ 2 ^ (7 * (w - 1)) :=
    Nat.pow_le_pow_right (by norm_num) (by omega)
  obtain ⟨hf1, hf2⟩ := hfit
  have h2 : 2 ≤ 2 ^ (7 * w') := by
    calc 2 = 2 ^ 1 := rfl
    _ ≤ 2 ^ (7 * w') := Nat.pow_le_pow_right (by norm_num) (by omega)
  rcases hlow with h | h | h <;> omega

theorem fromU8_spec (v : Nat) (hv : v < 256) : SizeSpec v (Size.fromU8 v) := by
  rw [Size.fromU8]
  by_cases hc : 7 < bitLenGo v 8 ∨ v = 0x7F
  · rw [if_pos hc]
    have hc' : 2 ^ 7 ≤ v ∨ v = 0x7F := by
      rcases hc with h | h
      · exact Or.inl ((bitLenGo_gt_iff 8 7 (by omega)).mp h)
      · exact Or.inr h
    have hg := gvSpec2 0 v (by norm_num) (by omega)
    rw [show (0x40 : Nat) ||| 0 = 0x40 by decide] at hg
    refine ⟨by rw [hg.1]; congr 1; omega, ?_, ?_⟩
    · rw [hg.2]; exact ⟨by omega, by omega⟩
    · rw [hg.2]
      exact minW_of (by norm_num) (by norm_num; omega)
  · rw [if_neg hc]
    push_neg at hc
    obtain ⟨h1, h2⟩ := hc
    have hv7 : v < 2 ^ 7 := by
      have := bitLenGo_le_iff 8 7 (show v < 2 ^ 8 by omega) (n := v)
      omega
    have hg := gvSpec1 v (by omega)
    refine ⟨hg.1, ?_, ?_⟩
    · rw [hg.2]; exact ⟨by omega, by omega⟩
    · rw [hg.2]
      exact minW_of (by norm_num) (Or.inr (Or.inr rfl))
theorem fromU16_spec (v : Nat) (hv : v < 65536) : SizeSpec v (Size.fromU16 v) := by
  rw [Size.fromU16]
  by_cases hc1 : 14 < bitLenGo v 16 ∨ v = 0x3FFF
  · rw [if_pos hc1]
    have hc' : 2 ^ 14 ≤ v ∨ v = 0x3FFF := by
      rcases hc1 with h | h
      · exact Or.inl ((bitLenGo_gt_iff 16 14 (by omega)).mp h)
      · exact Or.inr h
    have hg := gvSpec3 0 ((v >>> 8) % 256) (v % 256) (by norm_num) (by omega)
    rw [show (0x20 : Nat) ||| 0 = 0x20 by decide] at hg
    simp only [Nat.shiftRight_eq_div_pow] at hg ⊢
    refine ⟨by rw [hg.1]; congr 1; omega, ?_, ?_⟩
    · rw [hg.2]; exact ⟨by omega, by omega⟩
    · rw [hg.2]
      exact minW_of (by norm_num) (by norm_num; omega)
  · rw [if_neg hc1]
    push_neg at hc1
    obtain ⟨h1a, h1b⟩ := hc1
    have hv14 : v < 2 ^ 14 := by
      have := bitLenGo_le_iff 16 14 (show v < 2 ^ 16 by omega) (n := v)
      omega
    by_cases hc2 : 7 < bitLenGo v 16 ∨ v = 0x7F
    · rw [if_pos hc2]
      have hc' : 2 ^ 7 ≤ v ∨ v = 0x7F := by
        rcases hc2 with h | h
        · exact Or.inl ((bitLenGo_gt_iff 16 7 (by omega)).mp h)
        · exact Or.inr h
      have hg := gvSpec2 ((v >>> 8) % 256) (v % 256)
        (by simp only [Nat.shiftRight_eq_div_pow]; omega)
        (by simp only [Nat.shiftRight_eq_div_pow]; omega)
      simp only [Nat.shiftRight_eq_div_pow] at hg ⊢
      refine ⟨by rw [hg.1]; congr 1; omega, ?_, ?_⟩
      · rw [hg.2]; exact ⟨by omega, by omega⟩
      · rw [hg.2]
        exact minW_of (by norm_num) (by norm_num; omega)
    · rw [if_neg hc2]
      push_neg at hc2
      obtain ⟨h2a, h2b⟩ := hc2
      have hv7 : v < 2 ^ 7 := by
        have := bitLenGo_le_iff 16 7 (show v < 2 ^ 16 by omega) (n := v)
        omega
      rw [Nat.mod_eq_of_lt (by omega)]
      exact fromU8_spec v (by omega)

theorem fromU32_spec (v : Nat) (hv : v < 4294967296) : SizeSpec v (Size.fromU32 v) := by
  rw [Size.fromU32]
  by_cases hc1 : 28 < bitLenGo v 32 ∨ v = 0x0FFFFFFF
  · rw [if_pos hc1]
    have hc' : 2 ^ 28 ≤ v ∨ v = 0x0FFFFFFF := by
      rcases hc1 with h | h
      · exact Or.inl ((bitLenGo_gt_iff 32 28 (by omega)).mp h)
      · exact Or.inr h
    have hg := gvSpec5 0 ((v >>> 24) % 256) ((v >>> 16) % 256) ((v >>> 8) % 256) (v % 256)
      (by norm_num) (by omega)
    rw [show (0x08 : Nat) ||| 0 = 0x08 by decide] at hg
    simp only [Nat.shiftRight_eq_div_pow] at hg ⊢
    refine ⟨by rw [hg.1]; congr 1; omega, ?_, ?_⟩
    · rw [hg.2]; exact ⟨by omega, by omega⟩
    · rw [hg.2]
      exact minW_of (by norm_num) (by norm_num; omega)
  · rw [if_neg hc1]
    push_neg at hc1
    obtain ⟨h1a, h1b⟩ := hc1
    have hv28 : v < 2 ^ 28 := by
      have := bitLenGo_le_iff 32 28 (show v < 2 ^ 32 by omega) (n := v)
      omega
    by_cases hc2 : 21 < bitLenGo v 32 ∨ v = 0x1FFFFF
    · rw [if_pos hc2]
      have hc' : 2 ^ 21 ≤ v ∨ v = 0x1FFFFF := by
        rcases hc2 with h | h
        · exact Or.inl ((bitLenGo_gt_iff 32 21 (by omega)).mp h)
        · exact Or.inr h
      have hg := gvSpec4 ((v >>> 24) % 256) ((v >>> 16) % 256) ((v >>> 8) % 256) (v % 256)
        (by simp only [Nat.shiftRight_eq_div_pow]; omega)
        (by simp only [Nat.shiftRight_eq_div_pow]; omega)
      simp only [Nat.shiftRight_eq_div_pow] at hg ⊢
      refine ⟨by rw [hg.1]; congr 1; omega, ?_, ?_⟩
      · rw [hg.2]; exact ⟨by omega, by omega⟩
      · rw [hg.2]
        exact minW_of (by norm_num) (by norm_num; omega)
    · rw [if_neg hc2]
      push_neg at hc2
      obtain ⟨h2a, h2b⟩ := hc2
      have hv21 : v < 2 ^ 21 := by
        have := bitLenGo_le_iff 32 21 (show v < 2 ^ 32 by omega) (n := v)
        omega
      by_cases hc3 : 14 < bitLenGo v 32 ∨ v = 0x3FFF
      · rw [if_pos hc3]
        have hc' : 2 ^ 14 ≤ v ∨ v = 0x3FFF := by
          rcases hc3 with h | h
          · exact Or.inl ((bitLenGo_gt_iff 32 14 (by omega)).mp h)
          · exact Or.inr h
        have hg := gvSpec3 ((v >>> 16) % 256) ((v >>> 8) % 256) (v % 256)
          (by simp only [Nat.shiftRight_eq_div_pow]; omega)
          (by simp only [Nat.shiftRight_eq_div_pow]; omega)
        simp only [Nat.shiftRight_eq_div_pow] at hg ⊢
        refine ⟨by rw [hg.1]; congr 1; omega, ?_, ?_⟩
        · rw [hg.2]; exact ⟨by omega, by omega⟩
        · rw [hg.2]
          exact minW_of (by norm_num) (by norm_num; omega)
      · rw [if_neg hc3]
        push_neg at hc3
        obtain ⟨h3a, h3b⟩ := hc3
        have hv14 : v < 2 ^ 14 := by
          have := bitLenGo_le_iff 32 14 (show v < 2 ^ 32 by omega) (n := v)
          omega
        rw [Nat.mod_eq_of_lt (by omega)]
        exact fromU16_spec v (by omega)

theorem from_u64_spec (v : Nat) (hv : v < 2 ^ 64) (hb : v ≤ 2 ^ 56 - 2) :
    ∃ s, Size.from_u64 v = some s ∧ SizeSpec v s := by
  rw [Size.from_u64]
  have hnone : ¬(56 < bitLenGo v 64 ∨ v = 0xFFFFFFFFFFFFFF) := by
    push_neg
    refine ⟨?_, by omega⟩
    have := bitLenGo_le_iff 64 56 hv (n := v)
    omega
  rw [if_neg hnone]
  by_cases hc1 : 49 < bitLenGo v 64 ∨ v = 0x1FFFFFFFFFFFF
  · rw [if_pos hc1]
    have hc' : 2 ^ 49 ≤ v ∨ v = 0x1FFFFFFFFFFFF := by
      rcases hc1 with h | h
      · exact Or.inl ((bitLenGo_gt_iff 64 49 hv).mp h)
      · exact Or.inr h
    have hg := gvSpec8 ((v >>> 48) % 256) ((v >>> 40) % 256) ((v >>> 32) % 256)
      ((v >>> 24) % 256) ((v >>> 16) % 256) ((v >>> 8) % 256) (v % 256)
      (by simp only [Nat.shiftRight_eq_div_pow]; omega)
    simp only [Nat.shiftRight_eq_div_pow] at hg ⊢
    refine ⟨_, rfl, ?_, ?_, ?_⟩
    · rw [hg.1]; congr 1; omega
    · rw [hg.2]; exact ⟨by omega, by omega⟩
    · rw [hg.2]
      exact minW_of (by norm_num) (by norm_num; omega)
  · rw [if_neg hc1]
    push_neg at hc1
    obtain ⟨h1a, h1b⟩ := hc1
    have hv49 : v < 2 ^ 49 := by
      have := bitLenGo_le_iff 64 49 hv (n := v)
      omega
    by_cases hc2 : 42 < bitLenGo v 64 ∨ v = 0x3FFFFFFFFFF
    · rw [if_pos hc2]
      have hc' : 2 ^ 42 ≤ v ∨ v = 0x3FFFFFFFFFF := by
        rcases hc2 with h | h
        · exact Or.inl ((bitLenGo_gt_iff 64 42 hv).mp h)
        · exact Or.inr h
      have hg := gvSpec7 ((v >>> 48) % 256) ((v >>> 40) % 256) ((v >>> 32) % 256)
        ((v >>> 24) % 256) ((v >>> 16) % 256) ((v >>> 8) % 256) (v % 256)
        (by simp only [Nat.shiftRight_eq_div_pow]; omega)
        (by simp only [Nat.shiftRight_eq_div_pow]; omega)
      simp only [Nat.shiftRight_eq_div_pow] at hg ⊢
      refine ⟨_, rfl, ?_, ?_, ?_⟩
      · rw [hg.1]; congr 1; omega
      · rw [hg.2]; exact ⟨by omega, by omega⟩
      · rw [hg.2]
        exact minW_of (by norm_num) (by norm_num; omega)
    · rw [if_neg hc2]
      push_neg at hc2
      obtain ⟨h2a, h2b⟩ := hc2
      have hv42 : v < 2 ^ 42 := by
        have := bitLenGo_le_iff 64 42 hv (n := v)
        omega
      by_cases hc3 : 35 < bitLenGo v 64 ∨ v = 0x7FFFFFFFF
      · rw [if_pos hc3]
        have hc' : 2 ^ 35 ≤ v ∨ v = 0x7FFFFFFFF := by
          rcases hc3 with h | h
          · exact Or.inl ((bitLenGo_gt_iff 64 35 hv).mp h)
          · exact Or.inr h
        have hg := gvSpec6 ((v >>> 40) % 256) ((v >>> 32) % 256) ((v >>> 24) % 256)
          ((v >>> 16) % 256) ((v >>> 8) % 256) (v % 256)
          (by simp only [Nat.shiftRight_eq_div_pow]; omega)
          (by simp only [Nat.shiftRight_eq_div_pow]; omega)
        simp only [Nat.shiftRight_eq_div_pow] at hg ⊢
        refine ⟨_, rfl, ?_, ?_, ?_⟩
        · rw [hg.1]; congr 1; omega
        · rw [hg.2]; exact ⟨by omega, by omega⟩
        · rw [hg.2]
          exact minW_of (by norm_num) (by norm_num; omega)
      · rw [if_neg hc3]
        push_neg at hc3
        obtain ⟨h3a, h3b⟩ := hc3
        have hv35 : v < 2 ^ 35 := by
          have := bitLenGo_le_iff 64 35 hv (n := v)
          omega
        by_cases hc4 : 28 < bitLenGo v 64 ∨ v = 0x0FFFFFFF
        · rw [if_pos hc4]
          have hc' : 2 ^ 28 ≤ v ∨ v = 0x0FFFFFFF := by
            rcases hc4 with h | h
            · exact Or.inl ((bitLenGo_gt_iff 64 28 hv).mp h)
            · exact Or.inr h
          have hg := gvSpec5 ((v >>> 32) % 256) ((v >>> 24) % 256) ((v >>> 16) % 256)
            ((v >>> 8) % 256) (v % 256)
            (by simp only [Nat.shiftRight_eq_div_pow]; omega)
            (by simp only [Nat.shiftRight_eq_div_pow]; omega)
          simp only [Nat.shiftRight_eq_div_pow] at hg ⊢
          refine ⟨_, rfl, ?_, ?_, ?_⟩
          · rw [hg.1]; congr 1; omega
          · rw [hg.2]; exact ⟨by omega, by omega⟩
          · rw [hg.2]
            exact minW_of (by norm_num) (by norm_num; omega)
        · rw [if_neg hc4]
          push_neg at hc4
          obtain ⟨h4a, h4b⟩ := hc4
          have hv28 : v < 2 ^ 28 := by
            have := bitLenGo_le_iff 64 28 hv (n := v)
            omega
          refine ⟨_, rfl, ?_⟩
          rw [Nat.mod_eq_of_lt (by omega)]
          exact fromU32_spec v (by omega)

/-- C1: for every `v ∈ [0, 2^56 − 2]`, `Size::from_u64 v` succeeds, the result
decodes back to exactly `v` via `get_value`, and `get_width` is the minimum
width in `1..=8` in which `v` fits (7·width data bits, not the reserved
all-ones pattern); for every `v ≥ 2^56 − 1`, `Size::from_u64 v` is `None`. -/
theorem c1_vint_round_trip (v : Nat) (hv : v < 2 ^ 64) :
    (v ≤ 2 ^ 56 - 2 →
      ∃ s, Size.from_u64 v = some s ∧ s.get_value = some v ∧
        1 ≤ s.get_width ∧ s.get_width ≤ 8 ∧ fitsWidth v s.get_width ∧
        ∀ w, 1 ≤ w → fitsWidth v w → s.get_width ≤ w) ∧
    (2 ^ 56 - 1 ≤ v → Size.from_u64 v = none) := by
  constructor
  · intro hb
    obtain ⟨s, hs, hspec⟩ := from_u64_spec v hv hb
    have hw1 : 1 ≤ s.get_width := by
      have : s.get_width = s.lz + 1 := rfl
      omega
    have hw8 : s.get_width ≤ 8 :=
      hspec.2.2 8 (by norm_num) ⟨by norm_num; omega, by norm_num; omega⟩
    exact ⟨s, hs, hspec.1, hw1, hw8, hspec.2.1, hspec.2.2⟩
  · intro hge
    rw [Size.from_u64, if_pos]
    by_cases h : v = 2 ^ 56 - 1
    · exact Or.inr (by omega)
    · exact Or.inl ((bitLenGo_gt_iff 64 56 hv).mpr (by omega))

/-- Witness for C1 at `v = 300` (round trip) and `v = 2^56 − 1` (rejection). -/
theorem c1_vint_round_trip_witness :
    (∃ s, Size.from_u64 300 = some s ∧ s.get_value = some 300 ∧
      1 ≤ s.get_width ∧ s.get_width ≤ 8 ∧ fitsWidth 300 s.get_width ∧
      ∀ w, 1 ≤ w → fitsWidth 300 w → s.get_width ≤ w) ∧
    Size.from_u64 (2 ^ 56 - 1) = none := by
  constructor
  · exact (c1_vint_round_trip 300 (by norm_num)).1 (by norm_num)
  · exact (c1_vint_round_trip (2 ^ 56 - 1) (by norm_num)).2 (by norm_num)

/-- Models `impl PartialEq for Size`: known values compare by numeric value,
the unknown sentinel equals exactly the unknown sentinel. -/
def Size.eqSize (a b : Size) : Bool :=
  let other := b.get_value
  match a.get_value with
  | some self_val =>
    match other with
    | some other_val => self_val == other_val
    | none => false
  | none => other.isNone

/-- Models `impl PartialOrd for Size` (`partial_cmp`): two known values compare
by `u64` comparison (always `Some`), anything involving the unknown sentinel is
`None`. -/
def Size.pcmp (a b : Size) : Option Ordering :=
  match a.get_value with
  | some self_val =>
    match b.get_value with
    | some other_val => some (compare self_val other_val)
    | none => none
  | none => none

/-- Well-formedness of a `Size` as the library constructs it: head is a
nonzero byte and the tail holds exactly 7 bytes. -/
def Size.WF (s : Size) : Prop :=
  0 < s.head ∧ s.head < 256 ∧ s.tail.length = 7 ∧ ∀ b ∈ s.tail, b < 256

instance (s : Size) : Decidable s.WF := by
  unfold Size.WF; infer_instance

/-- C5: for known sizes, equality is numeric-value equality and `partial_cmp`
is the `u64` comparison; the unknown sentinel equals itself and no known value;
`partial_cmp` is `None` whenever either side is the unknown sentinel. -/
theorem c5_size_eq_ord (a b : Size) (ha : a.WF) (hb : b.WF) :
    (∀ x y, a.get_value = some x → b.get_value = some y →
      ((a.eqSize b = true ↔ x = y) ∧ a.pcmp b = some (compare x y))) ∧
    (a.get_value = none → b.get_value = none → a.eqSize b = true) ∧
    (a.get_value = none → b.get_value ≠ none → a.eqSize b = false) ∧
    (a.get_value ≠ none → b.get_value = none → a.eqSize b = false) ∧
    ((a.get_value = none ∨ b.get_value = none) → a.pcmp b = none) := by
  refine ⟨?_, ?_, ?_, ?_, ?_⟩
  · intro x y hx hy
    simp [Size.eqSize, Size.pcmp, hx, hy]
  · intro hx hy
    simp [Size.eqSize, hx, hy]
  · intro hx hy
    obtain ⟨y, hy⟩ := Option.ne_none_iff_exists'.mp hy
    simp [Size.eqSize, hx, hy]
  · intro hx hy
    obtain ⟨x, hx⟩ := Option.ne_none_iff_exists'.mp hx
    simp [Size.eqSize, hx, hy]
  · rintro (hx | hy)
    · simp [Size.pcmp, hx]
    · cases hx : a.get_value <;> simp [Size.pcmp, hx, hy]

/-- Witness for C5: `4 < 5` on known sizes, and unknown versus known is
unordered. -/
theorem c5_size_eq_ord_witness :
    (Size.fromU8 4).pcmp (Size.fromU8 5) = some (compare 4 5) ∧
    (Size.fromU8 4).eqSize (Size.fromU8 4) = true ∧
    (Size.fromU8 4).pcmp UNKNOWN_SIZE = none ∧
    UNKNOWN_SIZE.eqSize UNKNOWN_SIZE = true := by
  have h1 := c5_size_eq_ord (Size.fromU8 4) (Size.fromU8 5) (by decide) (by decide)
  have h2 := c5_size_eq_ord (Size.fromU8 4) (Size.fromU8 4) (by decide) (by decide)
  have h3 := c5_size_eq_ord (Size.fromU8 4) UNKNOWN_SIZE (by decide) (by decide)
  have h4 := c5_size_eq_ord UNKNOWN_SIZE UNKNOWN_SIZE (by decide) (by decide)
  refine ⟨(h1.1 4 5 (by decide) (by decide)).2, ?_, h3.2.2.2.2 (Or.inr (by decide)),
    h4.2.1 (by decide) (by decide)⟩
  exact ((h2.1 4 4 (by decide) (by decide)).1).mpr rfl

/-- Error type of the library (src/src/error.rs), I/O variant omitted since
streams are modelled as pure byte lists. -/
inductive EbmlError where
  | malformedDocument
  | idOutOfRange
  | wrongId
  deriving DecidableEq, Repr

/-- Outcome of loading from a byte stream: `panic` models a Rust panic (an
out-of-bounds slice index), `error` an `Err(..)` return, `ok` carries the
parsed value together with the remaining stream. -/
inductive Loaded (α : Type) where
  | panic
  | error (e : EbmlError)
  | ok (val : α) (rest : List Nat)
  deriving DecidableEq, Repr

/-- Models `Size::load` on a `PeekableReader` over byte stream `stream`.
`peek8` yields the first up-to-8 bytes; indexing `buf[0]` on an empty buffer,
`tail[i]` with `i ≥ 7` (first byte `0x00`), or `buf[1 + i]` beyond the peeked
bytes are Rust panics. -/
def Size.load (stream : List Nat) : Loaded Size :=
  let buf := stream.take 8
  match buf with
  | [] => .panic
  | b0 :: buftail =>
    let tail_len := 8 - bitLenGo b0 8
    if 7 < tail_len then .panic
    else if buftail.length < tail_len then .panic
    else .ok { head := b0, tail := buftail.take tail_len ++ List.replicate (7 - tail_len) 0 }
           (stream.drop (1 + tail_len))

/-- C2 (code bug): instead of returning an error value, `Size::load` panics
with an out-of-bounds index on an empty stream, on a stream shorter than the
width declared by its first byte, and on a first byte of `0x00`. -/
theorem c2_size_load_panics :
    Size.load [] = .panic ∧
    Size.load [0x40] = .panic ∧
    Size.load [0x01, 0xAA, 0xBB] = .panic ∧
    Size.load [0x00, 1, 2, 3, 4, 5, 6, 7, 8, 9] = .panic := by decide

/-- An EBML `Id` wraps a `Size` (src/src/id.rs). -/
structure Id where
  data : Size
  deriving DecidableEq, Repr

/-- Models `Id::load` from src/src/id.rs: load a `Size`, reject the unknown
sentinel, then admit exactly the four width classes with their value ranges. -/
def Id.load (stream : List Nat) : Loaded Id :=
  match Size.load stream with
  | .panic => .panic
  | .error e => .error e
  | .ok size rest =>
    match size.get_value with
    | none => .error .idOutOfRange
    | some value =>
      if size.get_width = 1 ∧ 0x00 < value ∧ value < 0x7F then .ok ⟨size⟩ rest
      else if size.get_width = 2 ∧ 0x7F ≤ value ∧ value < 0x3FFF then .ok ⟨size⟩ rest
      else if size.get_width = 3 ∧ 0x3FFF ≤ value ∧ value < 0x1FFFFF then .ok ⟨size⟩ rest
      else if size.get_width = 4 ∧ 0x1FFFFF ≤ value ∧ value < 0x0FFFFFFF then .ok ⟨size⟩ rest
      else .error .idOutOfRange

/-- The per-class decoded value ranges of §3 of the spec. -/
def idClassRange (w v : Nat) : Prop :=
  (w = 1 ∧ 0x01 ≤ v ∧ v ≤ 0x7E) ∨ (w = 2 ∧ 0x7F ≤ v ∧ v ≤ 0x3FFE) ∨
  (w = 3 ∧ 0x3FFF ≤ v ∧ v ≤ 0x1FFFFE) ∨ (w = 4 ∧ 0x1FFFFF ≤ v ∧ v ≤ 0x0FFFFFFE)

instance (w v : Nat) : Decidable (idClassRange w v) := by
  unfold idClassRange; infer_instance

/-- C3: on every stream whose `Size` decodes, `Id::load` succeeds exactly when
the decoded width is 1..=4 with the decoded value strictly inside the per-class
range; the unknown sentinel and every out-of-range width or value fail with
`IdOutOfRange`. -/
theorem c3_id_load_range (stream : List Nat) (s : Size) (rest : List Nat)
    (h : Size.load stream = .ok s rest) :
    (∀ v, s.get_value = some v →
      (idClassRange s.get_width v → Id.load stream = .ok ⟨s⟩ rest) ∧
      (¬ idClassRange s.get_width v → Id.load stream = .error .idOutOfRange)) ∧
    (s.get_value = none → Id.load stream = .error .idOutOfRange) := by
  constructor
  · intro v hv
    simp only [Id.load, h, hv]
    constructor
    · intro hrange
      simp only [idClassRange] at hrange
      split_ifs with h1 h2 h3 h4
      · rfl
      · rfl
      · rfl
      · rfl
      · exfalso; omega
    · intro hrange
      simp only [idClassRange] at hrange
      split_ifs with h1 h2 h3 h4
      · exfalso; omega
      · exfalso; omega
      · exfalso; omega
      · exfalso; omega
      · rfl
  · intro hnone
    simp only [Id.load, h, hnone]

/-- Witness for C3: the one-byte id `0x81` (value 1, class A) loads, the
unknown-sentinel byte `0xFF` and the class-violating `0x80` (value 0) fail. -/
theorem c3_id_load_range_witness :
    Id.load [0x81] = .ok ⟨⟨0x81, [0, 0, 0, 0, 0, 0, 0]⟩⟩ [] ∧
    Id.load [0xFF] = .error .idOutOfRange ∧
    Id.load [0x80] = .error .idOutOfRange := by
  have h1 := c3_id_load_range [0x81] ⟨0x81, [0, 0, 0, 0, 0, 0, 0]⟩ [] (by decide)
  have h2 := c3_id_load_range [0xFF] ⟨0xFF, [0, 0, 0, 0, 0, 0, 0]⟩ [] (by decide)
  have h3 := c3_id_load_range [0x80] ⟨0x80, [0, 0, 0, 0, 0, 0, 0]⟩ [] (by decide)
  exact ⟨(h1.1 1 (by decide)).1 (by decide), h2.2 (by decide),
    (h3.1 0 (by decide)).2 (by decide)⟩

/-- Outcome of `read_zero_or_one_children_by_container`: `okSome` carries the
child container's declared length and the remaining stream. -/
inductive ReadChildOutcome where
  | panic
  | error (e : EbmlError)
  | okNone (rest : List Nat)
  | okSome (length : Size) (rest : List Nat)
  deriving DecidableEq, Repr

/-- Models `ContainerReader::read_zero_or_one_children_by_container`
(src/src/read.rs): load an `Id` from the source, compare it with the expected
child's id (`NC::get_id()`, abstracted as `expectedId`; the derived `Id`
equality compares the wrapped `Size`s by value); on a match also load the
declared size, otherwise return `Ok(None)`. -/
def read_zero_or_one_children_by_container (expectedId : Id) (stream : List Nat) :
    ReadChildOutcome :=
  match Id.load stream with
  | .panic => .panic
  | .error e => .error e
  | .ok id rest =>
    if expectedId.data.eqSize id.data then
      match Size.load rest with
      | .panic => .panic
      | .error e => .error e
      | .ok len rest2 => .okSome len rest2
    else .okNone rest

theorem size_load_consumes (stream rest : List Nat) (s : Size)
    (h : Size.load stream = .ok s rest) : rest.length < stream.length := by
  unfold Size.load at h
  cases stream with
  | nil => simp at h
  | cons b t =>
    simp only [List.take_succ_cons] at h
    split_ifs at h
    cases h
    simp only [List.length_cons, List.length_drop]
    omega

/-- C10 counterexample: the expected child id is the class-A id `0x42`, the
stream starts with the non-matching id byte `0x81`; the call returns `Ok(None)`
but the remaining stream is missing the id byte — the position moved. -/
theorem c10_counterexample :
    read_zero_or_one_children_by_container ⟨Size.fromU8 0x42⟩ [0x81, 0x99] =
      .okNone [0x99] ∧
    [0x99] ≠ [0x81, 0x99] := by decide

/-- C10 (amended): on a successfully decoded but non-matching id the call
returns `Ok(None)`, yet the id's bytes are consumed: the remaining stream is
the suffix after the id, strictly shorter than the input. -/
theorem c10_mismatch_consumes_id (expectedId : Id) (stream rest : List Nat) (id : Id)
    (h : Id.load stream = .ok id rest)
    (hne : expectedId.data.eqSize id.data = false) :
    read_zero_or_one_children_by_container expectedId stream = .okNone rest ∧
    rest.length < stream.length := by
  constructor
  · simp only [read_zero_or_one_children_by_container, h, hne]
    simp
  · unfold Id.load at h
    cases hs : Size.load stream with
    | panic => rw [hs] at h; simp at h
    | error e => rw [hs] at h; simp at h
    | ok s rest' =>
      rw [hs] at h
      dsimp only at h
      have hrest : rest' = rest := by
        cases hv : s.get_value with
        | none => rw [hv] at h; simp at h
        | some v =>
          rw [hv] at h
          dsimp only at h
          split_ifs at h <;> (cases h; rfl)
      rw [← hrest]
      exact size_load_consumes stream rest' s hs

/-- Witness for C10's amended theorem at expected id `0x42`, stream
`[0x85, 0x33]`. -/
theorem c10_mismatch_consumes_id_witness :
    read_zero_or_one_children_by_container ⟨Size.fromU8 0x42⟩ [0x85, 0x33] =
      .okNone [0x33] ∧ ([0x33] : List Nat).length < ([0x85, 0x33] : List Nat).length :=
  c10_mismatch_consumes_id ⟨Size.fromU8 0x42⟩ [0x85, 0x33] [0x33]
    ⟨⟨0x85, [0, 0, 0, 0, 0, 0, 0]⟩⟩ (by decide) (by decide)

/-- Models `Id::new_class_a` (takes the literal value, not the encoded form). -/
def Id.new_class_a (data : Nat) : Option Id :=
  if data = 0 ∨ 0x7F ≤ data then none else some ⟨Size.fromU8 data⟩

/-- Models `Id::new_class_b`. -/
def Id.new_class_b (data : Nat) : Option Id :=
  if data < 0x7F ∨ 0x3FFF ≤ data then none else some ⟨Size.fromU16 data⟩

/-- Models `Id::new_class_c`. -/
def Id.new_class_c (data : Nat) : Option Id :=
  if data < 0x3FFF ∨ 0x1FFFFF ≤ data then none else some ⟨Size.fromU32 data⟩

/-- Models `Id::new_class_d`. -/
def Id.new_class_d (data : Nat) : Option Id :=
  if data < 0x1FFFFF ∨ 0x0FFFFFFF ≤ data then none else some ⟨Size.fromU32 data⟩

/-- Models `Void::get_id` (src/src/std_elems.rs), whose body is
`Id::new_class_a(0xEC).unwrap()`; the `unwrap` panics exactly when this
`Option` is `none`. -/
def Void.get_id : Option Id := Id.new_class_a 0xEC

/-- Models `Crc32Container::get_id` (src/src/std_containers.rs), whose body is
`Id::new_class_a(0xC3).unwrap()`. -/
def Crc32Container.get_id : Option Id := Id.new_class_a 0xC3

/-- C4 (code bug): `Id::new_class_a` rejects every value `≥ 0x7F`, and `0xEC`
and `0xC3` are the encoded (not literal) forms, so the `unwrap` in
`Void::get_id` and `Crc32Container::get_id` panics instead of returning the
fixed ids; contrast `EbmlHeader::get_id`, whose class-D literal succeeds. -/
theorem c4_get_id_unwrap_panics :
    Void.get_id = none ∧ Crc32Container.get_id = none ∧
    (Id.new_class_d 0x0A45DFA3).isSome = true := by decide

/-- Rust constant `UNIX_TO_MILLENNIUM_NANOS` (src/src/value.rs). -/
def UNIX_TO_MILLENNIUM_NANOS : Int := 978307200000000000

/-- Models `i64::checked_sub`. -/
def checked_sub_i64 (a b : Int) : Option Int :=
  if -(2 ^ 63) ≤ a - b ∧ a - b < 2 ^ 63 then some (a - b) else none

/-- Models `i64::checked_mul`. -/
def checked_mul_i64 (a b : Int) : Option Int :=
  if -(2 ^ 63) ≤ a * b ∧ a * b < 2 ^ 63 then some (a * b) else none

/-- Models `DateValue::from_unix_millis`: the subtracted constant in the
source is `UNIX_TO_MILLENNIUM_NANOS`, not a milliseconds constant. -/
def DateValue.from_unix_millis (millis : Int) : Option Int :=
  (checked_sub_i64 millis UNIX_TO_MILLENNIUM_NANOS).bind
    (fun x => checked_mul_i64 x 1000000)

/-- C7 (code bug): at the millennium in Unix milliseconds the claim expects
`Some` of scalar 0, but the code subtracts the nanoseconds constant from a
milliseconds value, so the subsequent `checked_mul` overflows and the call
returns `None`. -/
theorem c7_from_unix_millis_overflows :
    DateValue.from_unix_millis 978307200000 = none ∧
    ((978307200000 - 978307200000 : Int) * 1000000 = 0) := by decide

/-- Models `impl Restriction for Intersecton` (sic, the source's spelling):
child restrictions are dynamic trait objects, modelled as boolean predicates. -/
def Intersecton.matchesValue {α : Type} (restrictions : List (α → Bool)) (value : α) : Bool :=
  restrictions.all (fun r => r value)

/-- Models `impl Restriction for Union`. -/
def Union.matchesValue {α : Type} (restrictions : List (α → Bool)) (value : α) : Bool :=
  restrictions.any (fun r => r value)

/-- Models `StringValue` (src/src/value.rs): the string as its Unicode scalar
values, plus a zero-padding length; `to_repr` drops the padding. -/
structure StringValue where
  data : List Nat
  padding_len : Nat
  deriving DecidableEq, Repr

/-- Models `StringValue::to_repr`. -/
def StringValue.to_repr (s : StringValue) : List Nat := s.data

/-- Models `StringRangeRestriction` (src/ebml/src/restrictions.rs); the `char`
endpoints are Unicode scalar values. -/
inductive StringRangeRestriction where
  | single (allowed : Nat)
  | closed (lo hi : Nat)
  | openRight (lo : Nat)
  deriving DecidableEq, Repr

/-- The per-codepoint test of a single string range-item (the match arm shared
by the single-restriction impl and the slice impl). -/
def StringRangeRestriction.matchesChar : StringRangeRestriction → Nat → Bool
  | .single allowed, c => c == allowed
  | .closed lo hi, c => decide (lo ≤ c) && decide (c ≤ hi)
  | .openRight lo, c => decide (lo ≤ c)

/-- Models `impl Restriction<StringValue> for [StringRangeRestriction]`: every
codepoint of the canonical representation must be matched by some item. -/
def stringSliceMatches (self : List StringRangeRestriction) (value : StringValue) : Bool :=
  value.to_repr.all (fun c => self.any (fun s => s.matchesChar c))

/-- C8: `Intersecton` matches iff every child matches, `Union` matches iff some
child matches, and a slice of string range-items matches iff every codepoint of
the canonical string is matched by at least one item. -/
theorem c8_restriction_composers {α : Type} (rs : List (α → Bool)) (v : α)
    (items : List StringRangeRestriction) (sv : StringValue) :
    (Intersecton.matchesValue rs v = true ↔ ∀ r ∈ rs, r v = true) ∧
    (Union.matchesValue rs v = true ↔ ∃ r ∈ rs, r v = true) ∧
    (stringSliceMatches items sv = true ↔
      ∀ c ∈ sv.to_repr, ∃ item ∈ items, item.matchesChar c = true) := by
  refine ⟨?_, ?_, ?_⟩
  · simp [Intersecton.matchesValue, List.all_eq_true]
  · simp [Union.matchesValue, List.any_eq_true]
  · simp [stringSliceMatches, List.all_eq_true, List.any_eq_true]

/-- Models `nom::is_hex_digit`. -/
def is_hex_digit (b : Nat) : Bool :=
  (0x30 ≤ b && b ≤ 0x39) || (0x41 ≤ b && b ≤ 0x46) || (0x61 ≤ b && b ≤ 0x66)

/-- Loop body of `from_hex` (src/ebml_macros/src/parsers/mod.rs): `buf` is a
`u8`, so `buf <<= 4` wraps modulo 256; whitespace undoes the shift and is
skipped; every completed pair of hex digits pushes a byte. -/
def from_hex_go : List Nat → Nat → Nat → Option (List Nat)
  | [], modulus, _buf => if modulus = 0 then some [] else none
  | byte :: rest, modulus, buf =>
    let buf1 := buf * 16 % 256
    if 0x41 ≤ byte ∧ byte ≤ 0x46 then
      let buf2 := buf1 ||| (byte - 0x41 + 10)
      if modulus + 1 = 2 then (from_hex_go rest 0 buf2).map (fun b => buf2 :: b)
      else from_hex_go rest (modulus + 1) buf2
    else if 0x61 ≤ byte ∧ byte ≤ 0x66 then
      let buf2 := buf1 ||| (byte - 0x61 + 10)
      if modulus + 1 = 2 then (from_hex_go rest 0 buf2).map (fun b => buf2 :: b)
      else from_hex_go rest (modulus + 1) buf2
    else if 0x30 ≤ byte ∧ byte ≤ 0x39 then
      let buf2 := buf1 ||| (byte - 0x30)
      if modulus + 1 = 2 then (from_hex_go rest 0 buf2).map (fun b => buf2 :: b)
      else from_hex_go rest (modulus + 1) buf2
    else if byte = 0x20 ∨ byte = 0x0D ∨ byte = 0x0A ∨ byte = 0x09 then
      from_hex_go rest modulus (buf1 / 16)
    else none

/-- Models `from_hex`. -/
def from_hex (s : List Nat) : Option (List Nat) := from_hex_go s 0 0

/-- The quoted-string alternative of `binary_v`: a `"`, any bytes up to the
next `"`, and the closing `"`. -/
def binary_v_string_alt (input : List Nat) : Option (List Nat × List Nat) :=
  match input with
  | 0x22 :: rest =>
    if rest.contains 0x22 then
      some (rest.takeWhile (fun b => b != 0x22), (rest.dropWhile (fun b => b != 0x22)).drop 1)
    else none
  | _ => none

/-- Models the `binary_v` parser: first alternative is `0x` followed by
`take_while(is_hex_digit)` passed through `from_hex`; on failure the quoted
string alternative is tried. Returns the parsed bytes and the rest of the
input. -/
def binary_v (input : List Nat) : Option (List Nat × List Nat) :=
  match input with
  | 0x30 :: 0x78 :: rest =>
    (match from_hex (rest.takeWhile is_hex_digit) with
     | some bytes => some (bytes, rest.dropWhile is_hex_digit)
     | none => binary_v_string_alt input)
  | _ => binary_v_string_alt input

/-- C9 (code bug): `from_hex` is written to skip interior whitespace, but
`binary_v` hands it only the maximal run of hex digits, so the literal
`0x0A 0B` parses as the single byte `0x0A` with ` 0B` left unconsumed instead
of the claimed `[0x0A, 0x0B]`. -/
theorem c9_binary_v_stops_at_whitespace :
    from_hex [0x30, 0x41, 0x20, 0x30, 0x42] = some [0x0A, 0x0B] ∧
    binary_v [0x30, 0x78, 0x30, 0x41, 0x20, 0x30, 0x42] =
      some ([0x0A], [0x20, 0x30, 0x42]) ∧
    binary_v [0x30, 0x78, 0x30, 0x41, 0x30, 0x42] = some ([0x0A, 0x0B], []) := by
  decide

/-- Truncating cast into a signed `bits`-bit integer (Rust `as i8` / `as i16`
/ `as i32` on wider signed values). -/
def wrapI (bits : Nat) (x : Int) : Int :=
  (x + 2 ^ (bits - 1)) % 2 ^ bits - 2 ^ (bits - 1)

theorem wrapI_eq_self {bits : Nat} {x : Int} (hb : 1 ≤ bits)
    (h1 : -(2 ^ (bits - 1)) ≤ x) (h2 : x < 2 ^ (bits - 1)) :
    wrapI bits x = x := by
  unfold wrapI
  have h2b : (2 : Int) ^ bits = 2 ^ (bits - 1) * 2 := by
    rw [← pow_succ]
    congr 1
    omega
  rw [h2b]
  have hp : (0 : Int) < 2 ^ (bits - 1) := by positivity
  rw [Int.emod_eq_of_lt (by omega) (by omega)]
  omega

/-- Models `IntValue` (src/src/value.rs); payloads carry the mathematical
value of the stored `i8`/`i16`/`i32`/`i64` field. -/
inductive IntValue where
  | int0
  | int1 (x : Int)
  | int2 (x : Int)
  | int3 (x : Int)
  | int4 (x : Int)
  | int5 (x : Int)
  | int6 (x : Int)
  | int7 (x : Int)
  | int8 (x : Int)
  deriving DecidableEq, Repr

/-- Models `impl From<i8> for IntValue`. -/
def IntValue.fromI8 (data : Int) : IntValue :=
  if data = 0 then .int0 else .int1 data

/-- Models `impl From<i16> for IntValue`; the `as i8` cast truncates. -/
def IntValue.fromI16 (data : Int) : IntValue :=
  if 0x7F < data ∨ data < -0x80 then .int2 data
  else IntValue.fromI8 (wrapI 8 data)

/-- Models `impl From<i32> for IntValue`. -/
def IntValue.fromI32 (data : Int) : IntValue :=
  if 0x7FFFFF < data ∨ data < -0x800000 then .int4 data
  else if 0x7FFF < data ∨ data < -0x8000 then .int3 data
  else IntValue.fromI16 (wrapI 16 data)

/-- Models `impl From<i64> for IntValue`. -/
def IntValue.fromI64 (data : Int) : IntValue :=
  if 0x7FFFFFFFFFFFFF < data ∨ data < -0x80000000000000 then .int8 data
  else if 0x7FFFFFFFFFFF < data ∨ data < -0x800000000000 then .int7 data
  else if 0x7FFFFFFFFF < data ∨ data < -0x8000000000 then .int6 data
  else if 0x7FFFFFFF < data ∨ data < -0x80000000 then .int5 data
  else IntValue.fromI32 (wrapI 32 data)

/-- Models `IntValue::get_size`. -/
def IntValue.get_size : IntValue → Size
  | .int0 => Size.fromU8 0
  | .int1 _ => Size.fromU8 1
  | .int2 _ => Size.fromU8 2
  | .int3 _ => Size.fromU8 3
  | .int4 _ => Size.fromU8 4
  | .int5 _ => Size.fromU8 5
  | .int6 _ => Size.fromU8 6
  | .int7 _ => Size.fromU8 7
  | .int8 _ => Size.fromU8 8

/-- Models `IntValue::to_repr`. -/
def IntValue.to_repr : IntValue → Int
  | .int0 => 0
  | .int1 x => x
  | .int2 x => x
  | .int3 x => x
  | .int4 x => x
  | .int5 x => x
  | .int6 x => x
  | .int7 x => x
  | .int8 x => x

/-- Models `UintValue` (src/src/value.rs). -/
inductive UintValue where
  | uint0
  | uint1 (x : Nat)
  | uint2 (x : Nat)
  | uint3 (x : Nat)
  | uint4 (x : Nat)
  | uint5 (x : Nat)
  | uint6 (x : Nat)
  | uint7 (x : Nat)
  | uint8 (x : Nat)
  deriving DecidableEq, Repr

/-- Models `impl From<u8> for UintValue`. -/
def UintValue.fromU8 (data : Nat) : UintValue :=
  if data = 0 then .uint0 else .uint1 data

/-- Models `impl From<u16> for UintValue`; `as u8` keeps the low byte. -/
def UintValue.fromU16 (data : Nat) : UintValue :=
  if 0xFF < data then .uint2 data else UintValue.fromU8 (data % 256)

/-- Models `impl From<u32> for UintValue`. -/
def UintValue.fromU32 (data : Nat) : UintValue :=
  if 0xFFFFFF < data then .uint4 data
  else if 0xFFFF < data then .uint3 data
  else UintValue.fromU16 (data % 65536)

/-- Models `impl From<u64> for UintValue`. -/
def UintValue.fromU64 (data : Nat) : UintValue :=
  if 0xFFFFFFFFFFFFFF < data then .uint8 data
  else if 0xFFFFFFFFFFFF < data then .uint7 data
  else if 0xFFFFFFFFFF < data then .uint6 data
  else if 0xFFFFFFFF < data then .uint5 data
  else UintValue.fromU32 (data % 4294967296)

/-- Models `UintValue::get_size`. -/
def UintValue.get_size : UintValue → Size
  | .uint0 => Size.fromU8 0
  | .uint1 _ => Size.fromU8 1
  | .uint2 _ => Size.fromU8 2
  | .uint3 _ => Size.fromU8 3
  | .uint4 _ => Size.fromU8 4
  | .uint5 _ => Size.fromU8 5
  | .uint6 _ => Size.fromU8 6
  | .uint7 _ => Size.fromU8 7
  | .uint8 _ => Size.fromU8 8

/-- Models `UintValue::to_repr`. -/
def UintValue.to_repr : UintValue → Nat
  | .uint0 => 0
  | .uint1 x => x
  | .uint2 x => x
  | .uint3 x => x
  | .uint4 x => x
  | .uint5 x => x
  | .uint6 x => x
  | .uint7 x => x
  | .uint8 x => x

/-- The `w`-byte two's-complement range contains `v`; width 0 holds only 0. -/
def fitsIntWidth (w : Nat) (v : Int) : Prop :=
  if w = 0 then v = 0 else -(2 ^ (8 * w - 1)) ≤ v ∧ v < 2 ^ (8 * w - 1)

instance (w : Nat) (v : Int) : Decidable (fitsIntWidth w v) := by
  unfold fitsIntWidth; infer_instance

/-- Encoding correctness of an `IntValue` for `v`: canonical representation is
`v` and the stored width is minimal. -/
def IntSpec (v : Int) (x : IntValue) : Prop :=
  x.to_repr = v ∧ ∃ w, x.get_size.get_value = some w ∧ fitsIntWidth w v ∧
    ∀ w', fitsIntWidth w' v → w ≤ w'

/-- Encoding correctness of a `UintValue` for `u`. -/
def UintSpec (u : Nat) (x : UintValue) : Prop :=
  x.to_repr = u ∧ ∃ w, x.get_size.get_value = some w ∧ u < 2 ^ (8 * w) ∧
    ∀ w', u < 2 ^ (8 * w') → w ≤ w'

theorem minIntW_of {v : Int} {w : Nat} (hw : 1 ≤ w)
    (hlow : (2 ≤ w ∧ (2 ^ (8 * (w - 1) - 1) ≤ v ∨ v < -(2 ^ (8 * (w - 1) - 1)))) ∨
      (w = 1 ∧ v ≠ 0)) :
    ∀ w', fitsIntWidth w' v → w ≤ w' := by
  intro w' hf
  by_contra hlt
  push_neg at hlt
  by_cases hw0 : w' = 0
  · subst hw0
    simp [fitsIntWidth] at hf
    rcases hlow with ⟨h2, h⟩ | ⟨h1, h⟩
    · have hp : (0 : Int) < 2 ^ (8 * (w - 1) - 1) := by positivity
      omega
    · exact h hf
  · have hw1' : 1 ≤ w' := by omega
    simp [fitsIntWidth, hw0] at hf
    rcases hlow with ⟨h2, h⟩ | ⟨h1, h⟩
    · have hmono : (2 : Int) ^ (8 * w' - 1) ≤ 2 ^ (8 * (w - 1) - 1) := by
        apply pow_le_pow_right₀ (by norm_num)
        omega
      omega
    · omega

theorem minUintW_of {u : Nat} {w : Nat} (hw : 1 ≤ w) (hlow : 2 ^ (8 * (w - 1)) ≤ u) :
    ∀ w', u < 2 ^ (8 * w') → w ≤ w' := by
  intro w' hf
  by_contra hlt
  push_neg at hlt
  have hmono : 2 ^ (8 * w') ≤ 2 ^ (8 * (w - 1)) :=
    Nat.pow_le_pow_right (by norm_num) (by omega)
  omega

theorem intFromI8_spec (v : Int) (h1 : -(2 ^ 7) ≤ v) (h2 : v < 2 ^ 7) :
    IntSpec v (IntValue.fromI8 v) := by
  unfold IntValue.fromI8
  by_cases h0 : v = 0
  · rw [if_pos h0]
    refine ⟨h0.symm, 0, (show (Size.fromU8 0).get_value = some 0 by decide), ?_, ?_⟩
    · simp [fitsIntWidth, h0]
    · intro w' _; omega
  · rw [if_neg h0]
    refine ⟨rfl, 1, (show (Size.fromU8 1).get_value = some 1 by decide), ?_, ?_⟩
    · simp only [fitsIntWidth]; norm_num; omega
    · exact minIntW_of (by norm_num) (Or.inr ⟨rfl, h0⟩)

theorem intFromI16_spec (v : Int) (h1 : -(2 ^ 15) ≤ v) (h2 : v < 2 ^ 15) :
    IntSpec v (IntValue.fromI16 v) := by
  unfold IntValue.fromI16
  by_cases hc : 0x7F < v ∨ v < -0x80
  · rw [if_pos hc]
    refine ⟨rfl, 2, (show (Size.fromU8 2).get_value = some 2 by decide), ?_, ?_⟩
    · simp only [fitsIntWidth]; norm_num; omega
    · exact minIntW_of (by norm_num) (Or.inl ⟨by norm_num, by norm_num; omega⟩)
  · rw [if_neg hc]
    push_neg at hc
    rw [wrapI_eq_self (by norm_num) (by norm_num; omega) (by norm_num; omega)]
    exact intFromI8_spec v (by omega) (by omega)

theorem intFromI32_spec (v : Int) (h1 : -(2 ^ 31) ≤ v) (h2 : v < 2 ^ 31) :
    IntSpec v (IntValue.fromI32 v) := by
  unfold IntValue.fromI32
  by_cases hc1 : 0x7FFFFF < v ∨ v < -0x800000
  · rw [if_pos hc1]
    refine ⟨rfl, 4, (show (Size.fromU8 4).get_value = some 4 by decide), ?_, ?_⟩
    · simp only [fitsIntWidth]; norm_num; omega
    · exact minIntW_of (by norm_num) (Or.inl ⟨by norm_num, by norm_num; omega⟩)
  · rw [if_neg hc1]
    push_neg at hc1
    by_cases hc2 : 0x7FFF < v ∨ v < -0x8000
    · rw [if_pos hc2]
      refine ⟨rfl, 3, (show (Size.fromU8 3).get_value = some 3 by decide), ?_, ?_⟩
      · simp only [fitsIntWidth]; norm_num; omega
      · exact minIntW_of (by norm_num) (Or.inl ⟨by norm_num, by norm_num; omega⟩)
    · rw [if_neg hc2]
      push_neg at hc2
      rw [wrapI_eq_self (by norm_num) (by norm_num; omega) (by norm_num; omega)]
      exact intFromI16_spec v (by omega) (by omega)

theorem intFromI64_spec (v : Int) (h1 : -(2 ^ 63) ≤ v) (h2 : v < 2 ^ 63) :
    IntSpec v (IntValue.fromI64 v) := by
  unfold IntValue.fromI64
  by_cases hc1 : 0x7FFFFFFFFFFFFF < v ∨ v < -0x80000000000000
  · rw [if_pos hc1]
    refine ⟨rfl, 8, (show (Size.fromU8 8).get_value = some 8 by decide), ?_, ?_⟩
    · simp only [fitsIntWidth]; norm_num; omega
    · exact minIntW_of (by norm_num) (Or.inl ⟨by norm_num, by norm_num; omega⟩)
  · rw [if_neg hc1]
    push_neg at hc1
    by_cases hc2 : 0x7FFFFFFFFFFF < v ∨ v < -0x800000000000
    · rw [if_pos hc2]
      refine ⟨rfl, 7, (show (Size.fromU8 7).get_value = some 7 by decide), ?_, ?_⟩
      · simp only [fitsIntWidth]; norm_num; omega
      · exact minIntW_of (by norm_num) (Or.inl ⟨by norm_num, by norm_num; omega⟩)
    · rw [if_neg hc2]
      push_neg at hc2
      by_cases hc3 : 0x7FFFFFFFFF < v ∨ v < -0x8000000000
      · rw [if_pos hc3]
        refine ⟨rfl, 6, (show (Size.fromU8 6).get_value = some 6 by decide), ?_, ?_⟩
        · simp only [fitsIntWidth]; norm_num; omega
        · exact minIntW_of (by norm_num) (Or.inl ⟨by norm_num, by norm_num; omega⟩)
      · rw [if_neg hc3]
        push_neg at hc3
        by_cases hc4 : 0x7FFFFFFF < v ∨ v < -0x80000000
        · rw [if_pos hc4]
          refine ⟨rfl, 5, (show (Size.fromU8 5).get_value = some 5 by decide), ?_, ?_⟩
          · simp only [fitsIntWidth]; norm_num; omega
          · exact minIntW_of (by norm_num) (Or.inl ⟨by norm_num, by norm_num; omega⟩)
        · rw [if_neg hc4]
          push_neg at hc4
          rw [wrapI_eq_self (by norm_num) (by norm_num; omega) (by norm_num; omega)]
          exact intFromI32_spec v (by omega) (by omega)

theorem uintFromU8_spec (u : Nat) (h : u < 2 ^ 8) : UintSpec u (UintValue.fromU8 u) := by
  unfold UintValue.fromU8
  by_cases h0 : u = 0
  · rw [if_pos h0]
    refine ⟨h0.symm, 0, (show (Size.fromU8 0).get_value = some 0 by decide), by omega, ?_⟩
    intro w' _; omega
  · rw [if_neg h0]
    refine ⟨rfl, 1, (show (Size.fromU8 1).get_value = some 1 by decide), by omega, ?_⟩
    exact minUintW_of (by norm_num) (by norm_num; omega)

theorem uintFromU16_spec (u : Nat) (h : u < 2 ^ 16) : UintSpec u (UintValue.fromU16 u) := by
  unfold UintValue.fromU16
  by_cases hc : 0xFF < u
  · rw [if_pos hc]
    refine ⟨rfl, 2, (show (Size.fromU8 2).get_value = some 2 by decide), by omega, ?_⟩
    exact minUintW_of (by norm_num) (by norm_num; omega)
  · rw [if_neg hc]
    push_neg at hc
    rw [Nat.mod_eq_of_lt (by omega)]
    exact uintFromU8_spec u (by omega)

theorem uintFromU32_spec (u : Nat) (h : u < 2 ^ 32) : UintSpec u (UintValue.fromU32 u) := by
  unfold UintValue.fromU32
  by_cases hc1 : 0xFFFFFF < u
  · rw [if_pos hc1]
    refine ⟨rfl, 4, (show (Size.fromU8 4).get_value = some 4 by decide), by omega, ?_⟩
    exact minUintW_of (by norm_num) (by norm_num; omega)
  · rw [if_neg hc1]
    push_neg at hc1
    by_cases hc2 : 0xFFFF < u
    · rw [if_pos hc2]
      refine ⟨rfl, 3, (show (Size.fromU8 3).get_value = some 3 by decide), by omega, ?_⟩
      exact minUintW_of (by norm_num) (by norm_num; omega)
    · rw [if_neg hc2]
      push_neg at hc2
      rw [Nat.mod_eq_of_lt (by omega)]
      exact uintFromU16_spec u (by omega)

theorem uintFromU64_spec (u : Nat) (h : u < 2 ^ 64) : UintSpec u (UintValue.fromU64 u) := by
  unfold UintValue.fromU64
  by_cases hc1 : 0xFFFFFFFFFFFFFF < u
  · rw [if_pos hc1]
    refine ⟨rfl, 8, (show (Size.fromU8 8).get_value = some 8 by decide), by omega, ?_⟩
    exact minUintW_of (by norm_num) (by norm_num; omega)
  · rw [if_neg hc1]
    push_neg at hc1
    by_cases hc2 : 0xFFFFFFFFFFFF < u
    · rw [if_pos hc2]
      refine ⟨rfl, 7, (show (Size.fromU8 7).get_value = some 7 by decide), by omega, ?_⟩
      exact minUintW_of (by norm_num) (by norm_num; omega)
    · rw [if_neg hc2]
      push_neg at hc2
      by_cases hc3 : 0xFFFFFFFFFF < u
      · rw [if_pos hc3]
        refine ⟨rfl, 6, (show (Size.fromU8 6).get_value = some 6 by decide), by omega, ?_⟩
        exact minUintW_of (by norm_num) (by norm_num; omega)
      · rw [if_neg hc3]
        push_neg at hc3
        by_cases hc4 : 0xFFFFFFFF < u
        · rw [if_pos hc4]
          refine ⟨rfl, 5, (show (Size.fromU8 5).get_value = some 5 by decide), by omega, ?_⟩
          exact minUintW_of (by norm_num) (by norm_num; omega)
        · rw [if_neg hc4]
          push_neg at hc4
          rw [Nat.mod_eq_of_lt (by omega)]
          exact uintFromU32_spec u (by omega)

/-- C6: `IntValue::from` of an `i64` stores the value at the smallest width
whose two's-complement range contains it (width 0 exactly for 0) and `to_repr`
recovers the value; symmetrically `UintValue::from` of a `u64` chooses the
smallest unsigned width. -/
theorem c6_value_width_minimality (v : Int) (u : Nat)
    (hv1 : -(2 ^ 63) ≤ v) (hv2 : v < 2 ^ 63) (hu : u < 2 ^ 64) :
    ((IntValue.fromI64 v).to_repr = v ∧
      ∃ w, (IntValue.fromI64 v).get_size.get_value = some w ∧ fitsIntWidth w v ∧
        ∀ w', fitsIntWidth w' v → w ≤ w') ∧
    ((UintValue.fromU64 u).to_repr = u ∧
      ∃ w, (UintValue.fromU64 u).get_size.get_value = some w ∧ u < 2 ^ (8 * w) ∧
        ∀ w', u < 2 ^ (8 * w') → w ≤ w') :=
  ⟨intFromI64_spec v hv1 hv2, uintFromU64_spec u hu⟩

/-- Witness for C6 at `v = -129` (signed, width 2) and `u = 300` (unsigned,
width 2). -/
theorem c6_value_width_minimality_witness :
    ((IntValue.fromI64 (-129)).to_repr = -129 ∧
      ∃ w, (IntValue.fromI64 (-129)).get_size.get_value = some w ∧
        fitsIntWidth w (-129) ∧ ∀ w', fitsIntWidth w' (-129) → w ≤ w') ∧
    ((UintValue.fromU64 300).to_repr = 300 ∧
      ∃ w, (UintValue.fromU64 300).get_size.get_value = some w ∧ 300 < 2 ^ (8 * w) ∧
        ∀ w', 300 < 2 ^ (8 * w') → w ≤ w') :=
  c6_value_width_minimality (-129) 300 (by norm_num) (by norm_num) (by norm_num)


end Ebml
